import Mathlib

/-!
Verification of the tokenCounter repository (src/main.py).

The core of the program walks a directory tree, decodes each regular file as
UTF-8, classifies it by language (name-based lexer lookup with a content-based
fallback), and accumulates per-language metrics through a pluggable scoring
function.  `analyze_repository` runs the walk once per metric (lines, tokens)
and assembles per-language records; `print_analysis_results` sorts the records
by descending lines of code (Python stable sort, `reverse=True`) and prepends a
synthetic "Total" row.

Shallow embedding conventions:
* a visited file is a `SourceFile`: its path, whether `os.path.isfile` holds,
  and the result of UTF-8 decoding (`none` models a `UnicodeDecodeError`);
* the directory walk is the list of visited files, in visit order;
* Python dicts (insertion ordered) are association lists `List (String × Nat)`
  updated in place for existing keys and appended for new keys;
* the pygments lexer lookups are opaque collaborators, passed as functions
  returning `Option Lexer`; the tiktoken scorer is an opaque `String → Nat`;
* Python floats for `tokens_per_line` are modelled as exact rationals; the
  guarded division `tokens / loc if loc > 0 else 0` is embedded literally;
* Python `sorted(..., key=..., reverse=True)` (a stable descending sort) is
  `List.mergeSort` with the comparison `le a b := key b ≤ key a`, which is
  stable and sorts descending by the key.
-/

namespace TokenCounter

/-- A file visited by `os.walk`: its path, whether `os.path.isfile` holds, and
the result of decoding its bytes as UTF-8 (`none` when decoding fails). -/
structure SourceFile where
  path : String
  isFile : Bool
  content : Option String
deriving DecidableEq, Repr

/-- A pygments lexer, reduced to the only field the program reads: `name`. -/
structure Lexer where
  name : String
deriving DecidableEq, Repr

/-- Membership test of a key in a Python-dict association list (`k in d`). -/
def dictMem (d : List (String × Nat)) (k : String) : Bool :=
  d.any (fun p => p.1 == k)

/-- Lookup of a key in a Python-dict association list (`d[k]`, as an option). -/
def dictFind (d : List (String × Nat)) (k : String) : Option Nat :=
  (d.find? (fun p => p.1 == k)).map (fun p => p.2)

/-- Lookup with a default (`d.get(k, v0)`). -/
def dictGetD (d : List (String × Nat)) (k : String) (v0 : Nat) : Nat :=
  (dictFind d k).getD v0

/-- The effect of the Python fragment
`if k not in d: d[k] = 0` followed by `d[k] += v`:
an existing binding is incremented in place (insertion order kept), a missing
binding is appended with value `v`. -/
def dictAdd (d : List (String × Nat)) (k : String) (v : Nat) : List (String × Nat) :=
  if dictMem d k then
    d.map (fun p => if p.1 == k then (p.1, p.2 + v) else p)
  else
    d ++ [(k, v)]

/-- One iteration of the per-file loop body of `process_files_in_directory`:
skip non-regular files, skip files whose bytes fail UTF-8 decoding, classify,
and — only when the label is truthy (Python `if language:`, which rejects both
`None` and the empty string) — add the score to the label's bucket. -/
def processOne (classify : String → String → Option String)
    (process_file_func : String → Nat)
    (acc : List (String × Nat)) (f : SourceFile) : List (String × Nat) :=
  if f.isFile then
    match f.content with
    | none => acc
    | some content =>
      match classify f.path content with
      | none => acc
      | some language =>
        if language == "" then acc
        else dictAdd acc language (process_file_func content)
  else acc

/-- Embedding of `process_files_in_directory`: fold the per-file loop body over
the files visited by the walk, starting from the empty dict. -/
def process_files_in_directory (classify : String → String → Option String)
    (files : List SourceFile)
    (process_file_func : String → Nat) : List (String × Nat) :=
  files.foldl (processOne classify process_file_func) []

/-- Embedding of `get_language_from_content`: try the name-based lexer lookup
(`get_lexer_for_filename`); on `ClassNotFound` try the content-based guess
(`guess_lexer_for_filename`); on failure of both return `None`.  The two
pygments lookups are opaque collaborators passed as functions. -/
def get_language_from_content
    (get_lexer_for_filename guess_lexer_for_filename : String → String → Option Lexer)
    (file_path content : String) : Option String :=
  match get_lexer_for_filename file_path content with
  | some lexer => some lexer.name
  | none =>
    match guess_lexer_for_filename file_path content with
    | some lexer => some lexer.name
    | none => none

/-- The line scorer of `count_lines_of_code_in_directory`:
`content.count('\n')`, the number of newline characters in the content. -/
def process_file_lines (content : String) : Nat :=
  content.data.count '\n'

/-- Embedding of `count_lines_of_code_in_directory`. -/
def count_lines_of_code_in_directory (classify : String → String → Option String)
    (files : List SourceFile) : List (String × Nat) :=
  process_files_in_directory classify files process_file_lines

/-- Embedding of `count_tokens_in_directory`; the tiktoken encoder is an
opaque collaborator `count_tokens : String → Nat` (a token count is the length
of a token list, hence a natural number). -/
def count_tokens_in_directory (classify : String → String → Option String)
    (count_tokens : String → Nat)
    (files : List SourceFile) : List (String × Nat) :=
  process_files_in_directory classify files count_tokens

/-- One per-language record of the analysis report:
`{"lines_of_code": ..., "tokens": ..., "tokens_per_line": ...}`. -/
structure Bucket where
  lines_of_code : Nat
  tokens : Nat
  tokens_per_line : ℚ
deriving DecidableEq, Repr

/-- Embedding of `analyze_repository`: run the walk once per metric, then for
each language of the lines dict (in insertion order) assemble a record, with
`tokens_per_line = tokens / loc if loc > 0 else 0`. -/
def analyze_repository (classify : String → String → Option String)
    (count_tokens : String → Nat)
    (files : List SourceFile) : List (String × Bucket) :=
  let loc_by_language := count_lines_of_code_in_directory classify files
  let tokens_by_language := count_tokens_in_directory classify count_tokens files
  loc_by_language.map (fun p =>
    let loc : Nat := p.2
    let tokens : Nat := dictGetD tokens_by_language p.1 0
    let tokens_per_line : ℚ :=
      if loc > 0 then (Nat.cast tokens : ℚ) / (Nat.cast loc : ℚ) else 0
    (p.1, ⟨loc, tokens, tokens_per_line⟩))

/-- The comparison used to embed
`sorted(..., key=lambda x: x[1]['lines_of_code'], reverse=True)`:
a stable sort placing larger line counts first. -/
def locDescLE (a b : String × Bucket) : Bool :=
  b.2.lines_of_code ≤ a.2.lines_of_code

/-- Embedding of `print_analysis_results`, as the list of rendered rows: the
records sorted by descending lines of code (stable), with a synthetic
`Total` row inserted at position 0. -/
def print_analysis_results (analysis_results : List (String × Bucket)) :
    List (String × Bucket) :=
  let sorted_results := analysis_results.mergeSort locDescLE
  let total_loc : Nat := (sorted_results.map (fun p => p.2.lines_of_code)).sum
  let total_tokens : Nat := (sorted_results.map (fun p => p.2.tokens)).sum
  let total_tokens_per_line : ℚ :=
    if total_loc > 0 then (Nat.cast total_tokens : ℚ) / (Nat.cast total_loc : ℚ) else 0
  ("Total", ⟨total_loc, total_tokens, total_tokens_per_line⟩) :: sorted_results

/-- The label under which a file is accumulated, if any: `none` when the file
is not regular, fails decoding, is unclassified, or gets the (falsy) empty
label.  This is a derived notion used to state theorems; the loop body
`processOne` is the authoritative embedding. -/
def effectiveLabel (classify : String → String → Option String)
    (f : SourceFile) : Option String :=
  if f.isFile then
    match f.content with
    | none => none
    | some content =>
      match classify f.path content with
      | none => none
      | some language => if language == "" then none else some language
  else none

/-- The score a file contributes when it is accumulated (its decoded content
fed to the scorer). -/
def fileScore (process_file_func : String → Nat) (f : SourceFile) : Nat :=
  (f.content.map process_file_func).getD 0

/-- A regular file that decodes as UTF-8 and is classified as `L`
(the claim-side description of the files summed into the bucket of `L`). -/
def classifiedAs (classify : String → String → Option String)
    (L : String) (f : SourceFile) : Bool :=
  f.isFile &&
    match f.content with
    | none => false
    | some content => classify f.path content == some L

/-- Claim-side notion (used only to state properties, never as an embedding of
code): the number of physical lines of a text, i.e. the number of lines an
editor displays.  Splitting on the line terminator yields one segment per
physical line plus one trailing empty segment when the text ends in a
terminator (or is empty). -/
def physicalLineCount (content : String) : Nat :=
  if content.data = [] then 0
  else if content.data.getLast? = some '\n' then (content.data.splitOn '\n').length - 1
  else (content.data.splitOn '\n').length

/-- Concrete name-based lexer lookup used for witnesses: recognises the path
`a.py`. -/
def sampleGetLexer : String → String → Option Lexer :=
  fun path _ => if path = "a.py" then some ⟨"Python"⟩ else none

/-- Concrete content-based lexer guess used for witnesses: recognises Go
source text. -/
def sampleGuessLexer : String → String → Option Lexer :=
  fun _ content => if content = "package main\n" then some ⟨"Go"⟩ else none

/-- The classifier for witnesses, assembled exactly as the program does. -/
def sampleClassify : String → String → Option String :=
  get_language_from_content sampleGetLexer sampleGuessLexer

/-- The stub token scorer from the spec scenario: `len(content) // 4`. -/
def sampleTokens : String → Nat := fun content => content.length / 4

/-- Witness file: a Python file with two line breaks. -/
def fileA : SourceFile := ⟨"a.py", true, some "x=1\ny=2\n"⟩

/-- Witness file: a Go file with one line break. -/
def fileB : SourceFile := ⟨"b.go", true, some "package main\n"⟩

/-- Witness file: a binary file whose bytes do not decode as UTF-8. -/
def fileBin : SourceFile := ⟨"blob.bin", true, none⟩

/-- Witness file: a text file no classification strategy recognises. -/
def fileUnknown : SourceFile := ⟨"mystery", true, some "????"⟩

/-- Witness walk: the spec scenario files plus an undecodable and an
unclassifiable file. -/
def sampleFiles : List SourceFile := [fileA, fileB, fileBin, fileUnknown]

/-- A classifier that labels every file with the empty string, to exercise the
truthiness test of the accumulation loop. -/
def emptyLabelClassify : String → String → Option String := fun _ _ => some ""

/-- Witness file: a Python file without a trailing line terminator, so its
bucket accumulates zero lines. -/
def fileNoNewline : SourceFile := ⟨"a.py", true, some "x=1"⟩

/-- Witness report rows: three language records, two of them tied on lines of
code. -/
def rowsSample : List (String × Bucket) :=
  [("A", ⟨2, 8, 4⟩), ("B", ⟨5, 5, 1⟩), ("C", ⟨2, 2, 1⟩)]

/-- The tied rows of `rowsSample`, in their original order. -/
def tiesSample : List (String × Bucket) :=
  [("A", ⟨2, 8, 4⟩), ("C", ⟨2, 2, 1⟩)]

/-! ### Dictionary lemmas -/

theorem dictMem_eq_isSome (d : List (String × Nat)) (k : String) :
    dictMem d k = (dictFind d k).isSome := by
  unfold dictMem dictFind
  rcases h : List.find? (fun p : String × Nat => p.1 == k) d with _ | q
  · rw [List.find?_eq_none] at h
    simp only [Option.map_none', Option.isSome_none]
    rw [List.any_eq_false]
    exact h
  · simp only [Option.map_some', Option.isSome_some]
    rw [List.any_eq_true]
    have hq := List.find?_some h
    exact ⟨q, List.mem_of_find?_eq_some h, hq⟩

theorem dictFind_dictAdd (d : List (String × Nat)) (k : String) (v : Nat) (k' : String) :
    dictFind (dictAdd d k v) k' =
      if k' = k then some (dictGetD d k 0 + v) else dictFind d k' := by
  by_cases hm : dictMem d k
  · have hfind : ∃ q, List.find? (fun p : String × Nat => p.1 == k) d = some q := by
      rw [dictMem_eq_isSome] at hm
      unfold dictFind at hm
      rcases ho : List.find? (fun p : String × Nat => p.1 == k) d with _ | q
      · rw [ho] at hm; simp at hm
      · exact ⟨q, rfl⟩
    unfold dictAdd
    rw [if_pos hm]
    unfold dictFind
    rw [List.find?_map]
    have hkey : ((fun p : String × Nat => p.1 == k') ∘
        (fun p : String × Nat => if p.1 == k then (p.1, p.2 + v) else p)) =
        (fun p : String × Nat => p.1 == k') := by
      funext p
      by_cases h : (p.1 == k) = true <;> simp [Function.comp, h]
    rw [hkey]
    rcases hf : List.find? (fun p : String × Nat => p.1 == k') d with _ | p
    · have hne : k' ≠ k := by
        rintro rfl
        rcases hfind with ⟨q, hq⟩
        rw [hq] at hf
        simp at hf
      rw [if_neg hne]
      simp
    · have hp : p.1 = k' := by simpa using List.find?_some hf
      by_cases he : k' = k
      · subst he
        rw [if_pos rfl]
        have hgd : dictGetD d k' 0 = p.2 := by
          unfold dictGetD dictFind
          rw [hf]
          rfl
        rw [hgd]
        simp [hp]
      · rw [if_neg he]
        have hnb : (p.1 == k) = false := by
          rw [hp]
          exact beq_eq_false_iff_ne.mpr he
        simp [hnb, hp, he]
  · unfold dictAdd
    rw [if_neg hm]
    unfold dictFind
    rw [List.find?_append]
    have hnone : List.find? (fun p : String × Nat => p.1 == k) d = none := by
      rcases ho : List.find? (fun p : String × Nat => p.1 == k) d with _ | q
      · rfl
      · exfalso
        apply hm
        rw [dictMem_eq_isSome]
        unfold dictFind
        rw [ho]
        rfl
    by_cases he : k' = k
    · subst he
      rw [if_pos rfl, hnone]
      have h0 : dictGetD d k' 0 = 0 := by
        unfold dictGetD dictFind
        rw [hnone]
        rfl
      rw [h0]
      simp
    · rw [if_neg he]
      have hsing : List.find? (fun p : String × Nat => p.1 == k') [(k, v)] = none := by
        have : ¬ (((k, v) : String × Nat).1 == k') = true := by
          simp only [beq_iff_eq]
          exact fun h => he h.symm
        simp [this]
      rw [hsing]
      simp

theorem dictGetD_dictAdd (d : List (String × Nat)) (k : String) (v : Nat) (k' : String) :
    dictGetD (dictAdd d k v) k' 0 = dictGetD d k' 0 + (if k' = k then v else 0) := by
  unfold dictGetD
  rw [dictFind_dictAdd]
  by_cases he : k' = k
  · subst he; simp [dictGetD]
  · simp [he]

theorem dictMem_dictAdd (d : List (String × Nat)) (k : String) (v : Nat) (k' : String) :
    dictMem (dictAdd d k v) k' = (dictMem d k' || k' == k) := by
  rw [dictMem_eq_isSome, dictMem_eq_isSome, dictFind_dictAdd]
  by_cases he : k' = k <;> simp [he]

/-! ### Characterization of the accumulation loop -/

theorem processOne_of_skip (classify : String → String → Option String)
    (score : String → Nat) (acc : List (String × Nat)) (f : SourceFile)
    (h : effectiveLabel classify f = none) :
    processOne classify score acc f = acc := by
  rcases f with ⟨path, isFile, content⟩
  cases isFile
  · simp [processOne]
  · rcases content with _ | c
    · simp [processOne]
    · simp only [effectiveLabel, if_true] at h
      rcases hc : classify path c with _ | language

      · simp [processOne, hc]
      · simp only [processOne, if_true, hc]
        rcases he : (language == "") with _ | _
        · exfalso
          rw [hc] at h
          have h' : (if (language == "") = true then none else some language) =
            (none : Option String) := h
          rw [he] at h'
          simp at h'
        · simp [he]

theorem processOne_getD (classify : String → String → Option String)
    (score : String → Nat) (acc : List (String × Nat)) (f : SourceFile) (L : String) :
    dictGetD (processOne classify score acc f) L 0 =
      dictGetD acc L 0 +
        (if effectiveLabel classify f = some L then fileScore score f else 0) := by
  rcases f with ⟨path, isFile, content⟩
  cases isFile
  · simp [processOne, effectiveLabel]
  · rcases content with _ | c
    · simp [processOne, effectiveLabel]
    · simp only [processOne, effectiveLabel, if_true]
      rcases hc : classify path c with _ | language
      · simp
      · rcases he : (language == "") with _ | _
        · have hlang : language ≠ "" := by simpa using he
          simp only [he, Bool.false_eq_true, if_false]
          rw [dictGetD_dictAdd]
          by_cases hL : L = language
          · subst hL
            simp [fileScore]
          · have : ¬ (some language = some L) := by
              intro h
              exact hL (Option.some.inj h).symm
            simp [hL, this]
        · have hlang : language = "" := by simpa using he
          simp only [he, if_true]
          subst hlang
          simp

theorem processOne_mem (classify : String → String → Option String)
    (score : String → Nat) (acc : List (String × Nat)) (f : SourceFile) (L : String) :
    dictMem (processOne classify score acc f) L =
      (dictMem acc L || (effectiveLabel classify f == some L)) := by
  rcases f with ⟨path, isFile, content⟩
  cases isFile
  · simp [processOne, effectiveLabel]
  · rcases content with _ | c
    · simp [processOne, effectiveLabel]
    · simp only [processOne, effectiveLabel, if_true]
      rcases hc : classify path c with _ | language
      · simp
      · rcases he : (language == "") with _ | _
        · simp only [he, Bool.false_eq_true, if_false]
          rw [dictMem_dictAdd]
          by_cases hL : L = language
          · subst hL
            simp
          · have h1 : (L == language) = false := beq_eq_false_iff_ne.mpr hL
            have h2 : (language == L) = false :=
              beq_eq_false_iff_ne.mpr (fun h => hL h.symm)
            simp [h1, h2]
        · simp [he]

theorem foldl_getD (classify : String → String → Option String)
    (score : String → Nat) (files : List SourceFile) :
    ∀ acc L, dictGetD (files.foldl (processOne classify score) acc) L 0 =
      dictGetD acc L 0 +
        ((files.filter (fun f => effectiveLabel classify f == some L)).map
          (fileScore score)).sum := by
  induction files with
  | nil => intro acc L; simp
  | cons f fs ih =>
    intro acc L
    rw [List.foldl_cons, ih, processOne_getD]
    by_cases h : effectiveLabel classify f = some L
    · simp [h]
      omega
    · have : (effectiveLabel classify f == some L) = false := by
        simpa using h
      simp [h, this]

theorem foldl_mem (classify : String → String → Option String)
    (score : String → Nat) (files : List SourceFile) :
    ∀ acc L, dictMem (files.foldl (processOne classify score) acc) L =
      (dictMem acc L || files.any (fun f => effectiveLabel classify f == some L)) := by
  induction files with
  | nil => intro acc L; simp
  | cons f fs ih =>
    intro acc L
    rw [List.foldl_cons, ih, processOne_mem]
    simp [Bool.or_assoc]

theorem process_getD (classify : String → String → Option String)
    (score : String → Nat) (files : List SourceFile) (L : String) :
    dictGetD (process_files_in_directory classify files score) L 0 =
      ((files.filter (fun f => effectiveLabel classify f == some L)).map
        (fileScore score)).sum := by
  unfold process_files_in_directory
  rw [foldl_getD]
  simp [dictGetD, dictFind]

theorem process_mem (classify : String → String → Option String)
    (score : String → Nat) (files : List SourceFile) (L : String) :
    dictMem (process_files_in_directory classify files score) L =
      files.any (fun f => effectiveLabel classify f == some L) := by
  unfold process_files_in_directory
  rw [foldl_mem]
  simp [dictMem]

theorem classifiedAs_eq_effectiveLabel (classify : String → String → Option String)
    (L : String) (hL : L ≠ "") (f : SourceFile) :
    classifiedAs classify L f = (effectiveLabel classify f == some L) := by
  rcases f with ⟨path, isFile, content⟩
  cases isFile
  · simp [classifiedAs, effectiveLabel]
  · rcases content with _ | c
    · simp [classifiedAs, effectiveLabel]
    · simp only [classifiedAs, effectiveLabel, if_true, Bool.true_and]
      rcases hc : classify path c with _ | language
      · simp
      · rcases he : (language == "") with _ | _
        · simp
          exact fun _ => beq_eq_false_iff_ne.mp he
        · have hlang : language = "" := by simpa using he
          subst hlang
          simp [Ne.symm hL]

theorem effectiveLabel_ne_empty (classify : String → String → Option String)
    (f : SourceFile) : (effectiveLabel classify f == some "") = false := by
  rcases f with ⟨path, isFile, content⟩
  cases isFile
  · simp [effectiveLabel]
  · rcases content with _ | c
    · simp [effectiveLabel]
    · simp only [effectiveLabel, if_true]
      rcases hc : classify path c with _ | language
      · simp
      · rcases he : (language == "") with _ | _
        · simp [he]
        · simp [he]

theorem process_erase_skipped (classify : String → String → Option String)
    (score : String → Nat) (pre post : List SourceFile) (f : SourceFile)
    (h : effectiveLabel classify f = none) :
    process_files_in_directory classify (pre ++ f :: post) score =
      process_files_in_directory classify (pre ++ post) score := by
  unfold process_files_in_directory
  rw [List.foldl_append, List.foldl_append, List.foldl_cons, processOne_of_skip]
  exact h

theorem process_of_all_skipped (classify : String → String → Option String)
    (score : String → Nat) (files : List SourceFile)
    (h : ∀ f ∈ files, effectiveLabel classify f = none) :
    process_files_in_directory classify files score = [] := by
  unfold process_files_in_directory
  induction files with
  | nil => rfl
  | cons f fs ih =>
    rw [List.foldl_cons, processOne_of_skip]
    · exact ih (fun g hg => h g (List.mem_cons_of_mem f hg))
    · exact h f (List.mem_cons_self f fs)

theorem length_splitOn_newline (l : List Char) :
    (l.splitOn '\n').length = l.count '\n' + 1 := by
  unfold List.splitOn
  induction l with
  | nil => simp [List.splitOnP_nil]
  | cons c cs ih =>
    rw [List.splitOnP_cons]
    rcases h : (c == '\n') with _ | _
    · simp only [Bool.false_eq_true, if_false]
      rw [List.length_modifyHead, ih, List.count_cons, h]
      simp
    · simp only [if_true]
      rw [List.length_cons, ih, List.count_cons, h]
      simp [Nat.add_comm, Nat.add_assoc]

theorem dictFind_of_mem (d : List (String × Nat)) (k : String)
    (h : dictMem d k = true) : dictFind d k = some (dictGetD d k 0) := by
  rw [dictMem_eq_isSome] at h
  rcases ho : dictFind d k with _ | v
  · rw [ho] at h
    simp at h
  · unfold dictGetD
    rw [ho]
    rfl

theorem dictFind_of_not_mem (d : List (String × Nat)) (k : String)
    (h : dictMem d k = false) : dictFind d k = none := by
  rw [dictMem_eq_isSome] at h
  rcases ho : dictFind d k with _ | v
  · rfl
  · rw [ho] at h
    simp at h

/-! ### Claim theorems -/

/-- C1: for every root directory (modelled as the list of files visited by the
walk) and every metric scorer, the aggregation produces, for each language
label `L`, a bucket whose value equals the sum of the scorer applied to the
decoded content of every regular file that decodes as UTF-8 and is classified
as `L` — and no bucket when no such file exists, so files contribute to no
other bucket.  The label is quantified over genuine labels (`L ≠ ""`; the
empty label is the subject of the separate empty-label claim). -/
theorem bucket_value_is_sum_over_classified_files
    (classify : String → String → Option String) (score : String → Nat)
    (files : List SourceFile) (L : String) (hL : L ≠ "") :
    dictFind (process_files_in_directory classify files score) L =
      if (files.filter (classifiedAs classify L)).isEmpty then none
      else some (((files.filter (classifiedAs classify L)).map
        (fileScore score)).sum) := by
  have hfilter : files.filter (classifiedAs classify L) =
      files.filter (fun f => effectiveLabel classify f == some L) :=
    List.filter_congr (fun f _ => classifiedAs_eq_effectiveLabel classify L hL f)
  rw [hfilter]
  have hmem := process_mem classify score files L
  rcases hany : files.any (fun f => effectiveLabel classify f == some L) with _ | _
  · rw [hany] at hmem
    rw [dictFind_of_not_mem _ _ hmem]
    have hnil : files.filter (fun f => effectiveLabel classify f == some L) = [] := by
      rw [List.filter_eq_nil_iff]
      intro f hf
      have := List.any_eq_false.mp hany f hf
      simpa using this
    rw [hnil]
    rfl
  · rw [hany] at hmem
    rw [dictFind_of_mem _ _ hmem, process_getD]
    have hne : (files.filter (fun f => effectiveLabel classify f == some L)).isEmpty
        = false := by
      rcases List.any_eq_true.mp hany with ⟨f, hf, hp⟩
      have hmemf : f ∈ files.filter (fun f => effectiveLabel classify f == some L) :=
        List.mem_filter.mpr ⟨hf, hp⟩
      rcases hni : (files.filter (fun f => effectiveLabel classify f == some L)).isEmpty
        with _ | _
      · rfl
      · rw [List.isEmpty_iff] at hni
        rw [hni] at hmemf
        simp at hmemf
    rw [hne]
    simp

/-- Witness for C1 on the spec scenario files. -/
theorem bucket_value_is_sum_over_classified_files_witness :
    ("Python" : String) ≠ "" ∧
    dictFind (process_files_in_directory sampleClassify sampleFiles sampleTokens)
        "Python" =
      (if (sampleFiles.filter (classifiedAs sampleClassify "Python")).isEmpty then none
       else some (((sampleFiles.filter (classifiedAs sampleClassify "Python")).map
         (fileScore sampleTokens)).sum)) :=
  ⟨by decide,
   bucket_value_is_sum_over_classified_files sampleClassify sampleTokens sampleFiles
     "Python" (by decide)⟩

/-- C5: a file whose bytes fail to decode as UTF-8 is skipped entirely: the
aggregation over a walk containing it equals the aggregation over the walk
with it removed (it contributes to no bucket under any metric, no error is
recorded, no other encoding is tried, and the remaining files are still
processed). -/
theorem undecodable_file_skipped
    (classify : String → String → Option String) (score : String → Nat)
    (pre post : List SourceFile) (f : SourceFile) (h : f.content = none) :
    process_files_in_directory classify (pre ++ f :: post) score =
      process_files_in_directory classify (pre ++ post) score := by
  apply process_erase_skipped
  rcases f with ⟨path, isFile, content⟩
  simp only at h
  cases isFile <;> simp [effectiveLabel, h]

/-- Witness for C5: dropping the undecodable binary file leaves the result
unchanged. -/
theorem undecodable_file_skipped_witness :
    fileBin.content = none ∧
    process_files_in_directory sampleClassify ([fileA] ++ fileBin :: [fileUnknown])
        sampleTokens =
      process_files_in_directory sampleClassify ([fileA] ++ [fileUnknown])
        sampleTokens :=
  ⟨rfl, undecodable_file_skipped sampleClassify sampleTokens [fileA] [fileUnknown]
    fileBin rfl⟩

/-- C7: final per-language per-metric totals are invariant under any
permutation of the file-visit order, and aggregating two portions of the walk
separately and merging bucket-wise by addition equals aggregating the whole
walk directly. -/
theorem totals_order_invariant_and_additive :
    (∀ (classify : String → String → Option String) (score : String → Nat)
       (files₁ files₂ : List SourceFile), files₁.Perm files₂ →
       ∀ L, dictGetD (process_files_in_directory classify files₁ score) L 0 =
         dictGetD (process_files_in_directory classify files₂ score) L 0) ∧
    (∀ (classify : String → String → Option String) (score : String → Nat)
       (xs ys : List SourceFile) (L : String),
       dictGetD (process_files_in_directory classify (xs ++ ys) score) L 0 =
         dictGetD (process_files_in_directory classify xs score) L 0 +
           dictGetD (process_files_in_directory classify ys score) L 0) := by
  constructor
  · intro classify score files₁ files₂ hperm L
    rw [process_getD, process_getD]
    exact List.Perm.sum_eq ((hperm.filter _).map _)
  · intro classify score xs ys L
    rw [process_getD, process_getD, process_getD, List.filter_append,
      List.map_append, List.sum_append]

/-- Witness for C7: swapping the two scenario files does not change the
Python bucket. -/
theorem totals_order_invariant_and_additive_witness :
    ([fileA, fileB].Perm [fileB, fileA]) ∧
    dictGetD (process_files_in_directory sampleClassify [fileA, fileB] sampleTokens)
        "Python" 0 =
      dictGetD (process_files_in_directory sampleClassify [fileB, fileA] sampleTokens)
        "Python" 0 :=
  ⟨by decide,
   totals_order_invariant_and_additive.1 sampleClassify sampleTokens
     [fileA, fileB] [fileB, fileA] (by decide) "Python"⟩

/-- C6: classification first attempts name-based detection; only on its
failure does it attempt content-based heuristic detection; if both fail the
classifier returns no label and such a file is excluded from all aggregation
(counted toward no bucket, reported as no error). -/
theorem classification_fallback_chain :
    (∀ (gl gu : String → String → Option Lexer) (path content : String)
       (lexer : Lexer), gl path content = some lexer →
       get_language_from_content gl gu path content = some lexer.name) ∧
    (∀ (gl gu : String → String → Option Lexer) (path content : String)
       (lexer : Lexer), gl path content = none → gu path content = some lexer →
       get_language_from_content gl gu path content = some lexer.name) ∧
    (∀ (gl gu : String → String → Option Lexer) (path content : String),
       gl path content = none → gu path content = none →
       get_language_from_content gl gu path content = none) ∧
    (∀ (gl gu : String → String → Option Lexer) (score : String → Nat)
       (pre post : List SourceFile) (f : SourceFile) (c : String),
       f.content = some c → get_language_from_content gl gu f.path c = none →
       process_files_in_directory (get_language_from_content gl gu)
           (pre ++ f :: post) score =
         process_files_in_directory (get_language_from_content gl gu)
           (pre ++ post) score) := by
  refine ⟨?_, ?_, ?_, ?_⟩
  · intro gl gu path content lexer h
    unfold get_language_from_content
    rw [h]
  · intro gl gu path content lexer h1 h2
    unfold get_language_from_content
    rw [h1, h2]
  · intro gl gu path content h1 h2
    unfold get_language_from_content
    rw [h1, h2]
  · intro gl gu score pre post f c hc hnone
    apply process_erase_skipped
    rcases f with ⟨path, isFile, content⟩
    simp only at hc hnone
    subst hc
    cases isFile <;> simp [effectiveLabel, hnone]

/-- Witness for C6: the Go file is labelled by the content fallback, and the
unclassifiable file is dropped from the aggregation. -/
theorem classification_fallback_chain_witness :
    sampleGetLexer "b.go" "package main\n" = none ∧
    sampleGuessLexer "b.go" "package main\n" = some ⟨"Go"⟩ ∧
    get_language_from_content sampleGetLexer sampleGuessLexer "b.go"
      "package main\n" = some (Lexer.mk "Go").name ∧
    fileUnknown.content = some "????" ∧
    get_language_from_content sampleGetLexer sampleGuessLexer fileUnknown.path
      "????" = none ∧
    process_files_in_directory
        (get_language_from_content sampleGetLexer sampleGuessLexer)
        ([fileA] ++ fileUnknown :: [fileB]) sampleTokens =
      process_files_in_directory
        (get_language_from_content sampleGetLexer sampleGuessLexer)
        ([fileA] ++ [fileB]) sampleTokens :=
  ⟨by decide, by decide,
   classification_fallback_chain.2.1 sampleGetLexer sampleGuessLexer "b.go"
     "package main\n" ⟨"Go"⟩ (by decide) (by decide),
   rfl, by decide,
   classification_fallback_chain.2.2.2 sampleGetLexer sampleGuessLexer sampleTokens
     [fileA] [fileB] fileUnknown "????" rfl (by decide)⟩

/-- C10: the accumulation loop tests the label's truthiness, so a classifier
returning the empty string behaves exactly like no classification: no bucket
keyed by the empty label is ever created, and a file labelled with the empty
string leaves the aggregation unchanged. -/
theorem empty_label_excluded :
    (∀ (classify : String → String → Option String) (score : String → Nat)
       (files : List SourceFile),
       dictMem (process_files_in_directory classify files score) "" = false) ∧
    (∀ (classify : String → String → Option String) (score : String → Nat)
       (pre post : List SourceFile) (f : SourceFile) (c : String),
       f.content = some c → classify f.path c = some "" →
       process_files_in_directory classify (pre ++ f :: post) score =
         process_files_in_directory classify (pre ++ post) score) := by
  constructor
  · intro classify score files
    rw [process_mem, List.any_eq_false]
    intro f _
    rw [effectiveLabel_ne_empty]
    simp
  · intro classify score pre post f c hc hcl
    apply process_erase_skipped
    rcases f with ⟨path, isFile, content⟩
    simp only at hc hcl
    subst hc
    cases isFile <;> simp [effectiveLabel, hcl]

/-- Witness for C10: under a classifier that always answers the empty label,
a file is dropped and no empty-keyed bucket appears. -/
theorem empty_label_excluded_witness :
    fileA.content = some "x=1\ny=2\n" ∧
    emptyLabelClassify fileA.path "x=1\ny=2\n" = some "" ∧
    process_files_in_directory emptyLabelClassify ([] ++ fileA :: [fileB])
        sampleTokens =
      process_files_in_directory emptyLabelClassify ([] ++ [fileB]) sampleTokens :=
  ⟨rfl, rfl,
   empty_label_excluded.2 emptyLabelClassify sampleTokens [] [fileB] fileA
     "x=1\ny=2\n" rfl rfl⟩

/-- C9: a walk in which no file is classifiable (an empty directory included)
succeeds and yields a report with zero language buckets, rendered as a lone
synthetic Total row of all zeros. -/
theorem no_classifiable_files_zero_report
    (classify : String → String → Option String) (count_tokens : String → Nat)
    (files : List SourceFile)
    (h : ∀ f ∈ files, effectiveLabel classify f = none) :
    analyze_repository classify count_tokens files = [] ∧
    print_analysis_results (analyze_repository classify count_tokens files) =
      [("Total", ⟨0, 0, 0⟩)] := by
  have hloc : count_lines_of_code_in_directory classify files = [] :=
    process_of_all_skipped classify process_file_lines files h
  have hrep : analyze_repository classify count_tokens files = [] := by
    unfold analyze_repository
    rw [hloc]
    rfl
  refine ⟨hrep, ?_⟩
  rw [hrep]
  unfold print_analysis_results
  simp

/-- Witness for C9: a walk with only an undecodable and an unclassifiable
file yields the all-zero report. -/
theorem no_classifiable_files_zero_report_witness :
    (∀ f ∈ [fileBin, fileUnknown], effectiveLabel sampleClassify f = none) ∧
    analyze_repository sampleClassify sampleTokens [fileBin, fileUnknown] = [] ∧
    print_analysis_results
        (analyze_repository sampleClassify sampleTokens [fileBin, fileUnknown]) =
      [("Total", ⟨0, 0, 0⟩)] :=
  ⟨by decide,
   (no_classifiable_files_zero_report sampleClassify sampleTokens
     [fileBin, fileUnknown] (by decide)).1,
   (no_classifiable_files_zero_report sampleClassify sampleTokens
     [fileBin, fileUnknown] (by decide)).2⟩

/-- C2: in every rendered report the synthetic Total row's lines of code and
tokens are the sums of the respective fields over all real language rows. -/
theorem total_row_sums_buckets (rs : List (String × Bucket)) :
    ∃ b, (print_analysis_results rs).head? = some ("Total", b) ∧
      b.lines_of_code = (rs.map (fun p => p.2.lines_of_code)).sum ∧
      b.tokens = (rs.map (fun p => p.2.tokens)).sum := by
  refine ⟨_, rfl, ?_, ?_⟩
  · show ((rs.mergeSort locDescLE).map (fun p => p.2.lines_of_code)).sum = _
    exact List.Perm.sum_eq ((List.mergeSort_perm rs locDescLE).map _)
  · show ((rs.mergeSort locDescLE).map (fun p => p.2.tokens)).sum = _
    exact List.Perm.sum_eq ((List.mergeSort_perm rs locDescLE).map _)

/-- C3: for every language bucket of the analysis and for the synthetic Total
row, tokens per line is the guarded quotient: tokens divided by lines of code
when the line count is positive, and 0 when it is zero (the guard makes a
division error impossible; division is never reached on a zero denominator). -/
theorem tokens_per_line_guarded :
    (∀ (classify : String → String → Option String) (count_tokens : String → Nat)
       (files : List SourceFile) (p : String × Bucket),
       p ∈ analyze_repository classify count_tokens files →
       p.2.tokens_per_line =
         if p.2.lines_of_code > 0
         then (p.2.tokens : ℚ) / (p.2.lines_of_code : ℚ) else 0) ∧
    (∀ (rs : List (String × Bucket)) (name : String) (b : Bucket),
       (print_analysis_results rs).head? = some (name, b) →
       b.tokens_per_line =
         if b.lines_of_code > 0 then (b.tokens : ℚ) / (b.lines_of_code : ℚ)
         else 0) := by
  constructor
  · intro classify count_tokens files p hp
    unfold analyze_repository at hp
    rcases List.mem_map.mp hp with ⟨q, hq, rfl⟩
    rfl
  · intro rs name b hb
    unfold print_analysis_results at hb
    simp only [List.head?_cons, Option.some.injEq, Prod.mk.injEq] at hb
    obtain ⟨-, hbb⟩ := hb
    subst hbb
    rfl

/-- Witness for C3: a Python file with no line terminator yields a bucket with
zero lines whose tokens-per-line is 0, not a division error. -/
theorem tokens_per_line_guarded_witness :
    (("Python", Bucket.mk 0 0 0) ∈
      analyze_repository sampleClassify sampleTokens [fileNoNewline]) ∧
    (Bucket.mk 0 0 0).tokens_per_line =
      (if (Bucket.mk 0 0 0).lines_of_code > 0
       then ((Bucket.mk 0 0 0).tokens : ℚ) / ((Bucket.mk 0 0 0).lines_of_code : ℚ)
       else 0) :=
  ⟨by decide,
   tokens_per_line_guarded.1 sampleClassify sampleTokens [fileNoNewline]
     ("Python", Bucket.mk 0 0 0) (by decide)⟩

/-- C4: the rendered rows start with the synthetic Total row regardless of its
own value, and the remaining rows are exactly the report's buckets sorted by
descending lines of code, with ties keeping their original (insertion) order
(stability: every tied-run of the input survives as a sublist). -/
theorem rendered_rows_sorted (rs : List (String × Bucket)) :
    (∃ b, (print_analysis_results rs).head? = some ("Total", b)) ∧
    (print_analysis_results rs).tail.Pairwise
      (fun a b => b.2.lines_of_code ≤ a.2.lines_of_code) ∧
    (print_analysis_results rs).tail.Perm rs ∧
    (∀ ties : List (String × Bucket), List.Sublist ties rs →
      ties.Pairwise (fun a b => a.2.lines_of_code = b.2.lines_of_code) →
      List.Sublist ties (print_analysis_results rs).tail) := by
  have htrans : ∀ a b c : String × Bucket,
      locDescLE a b → locDescLE b c → locDescLE a c := by
    intro a b c hab hbc
    simp only [locDescLE, decide_eq_true_eq] at *
    omega
  have htotal : ∀ a b : String × Bucket, locDescLE a b || locDescLE b a := by
    intro a b
    simp only [locDescLE, Bool.or_eq_true, decide_eq_true_eq]
    omega
  have htail : (print_analysis_results rs).tail = rs.mergeSort locDescLE := rfl
  refine ⟨⟨_, rfl⟩, ?_, ?_, ?_⟩
  · rw [htail]
    have hs := List.sorted_mergeSort htrans htotal rs
    exact hs.imp (fun h => by simpa [locDescLE, decide_eq_true_eq] using h)
  · rw [htail]
    exact List.mergeSort_perm rs locDescLE
  · intro ties hsub hties
    rw [htail]
    exact List.sublist_mergeSort htrans htotal
      (hties.imp (fun h => by simp [locDescLE, h])) hsub

/-- Witness for C4: in a report with two rows tied on lines of code, the tied
pair keeps its original order among the rendered rows. -/
theorem rendered_rows_sorted_witness :
    List.Sublist tiesSample rowsSample ∧
    tiesSample.Pairwise (fun a b => a.2.lines_of_code = b.2.lines_of_code) ∧
    List.Sublist tiesSample (print_analysis_results rowsSample).tail :=
  ⟨by decide, by decide,
   (rendered_rows_sorted rowsSample).2.2.2 tiesSample (by decide) (by decide)⟩

/-- C8: the line scorer returns the number of line-terminator occurrences in
the content; consequently a nonempty content without a trailing terminator
counts one fewer than its physical lines ("lines of code" is the count of
line breaks, not of physical lines). -/
theorem line_scorer_counts_line_breaks (c : String) :
    process_file_lines c = (c.data.filter (fun ch => ch == '\n')).length ∧
    (c.data ≠ [] → c.data.getLast? ≠ some '\n' →
      1 ≤ physicalLineCount c ∧
      process_file_lines c = physicalLineCount c - 1) := by
  constructor
  · unfold process_file_lines
    show List.countP (fun ch => ch == '\n') c.data = _
    rw [List.countP_eq_length_filter]
  · intro hne hlast
    unfold physicalLineCount
    rw [if_neg hne, if_neg hlast, length_splitOn_newline]
    unfold process_file_lines
    omega

/-- Witness for C8: a two-physical-line content with no trailing terminator
scores one line. -/
theorem line_scorer_counts_line_breaks_witness :
    ("x=1\ny=2" : String).data ≠ [] ∧
    ("x=1\ny=2" : String).data.getLast? ≠ some '\n' ∧
    1 ≤ physicalLineCount "x=1\ny=2" ∧
    process_file_lines "x=1\ny=2" = physicalLineCount "x=1\ny=2" - 1 :=
  ⟨by decide, by decide,
   ((line_scorer_counts_line_breaks "x=1\ny=2").2 (by decide) (by decide)).1,
   ((line_scorer_counts_line_breaks "x=1\ny=2").2 (by decide) (by decide)).2⟩

end TokenCounter
